import Mathlib

/-!
# ofApp: click-to-draw-circle sketch

Shallow embedding of `src/src/ofApp.h` and `src/src/ofApp.cpp`.

* `AppState` is the data part of `class ofApp` (`showCircle`, `circleX`, `circleY`).
* The three hooks `setup`, `draw`, `mousePressed` are functions from a state to the
  next state together with the list of host drawing calls they issue, in order.
* `circleX`/`circleY` are C++ `float`s that are assigned from `int` parameters, so the
  implicit `int → float` conversion is part of the embedding (`Float32.ofInt`).
-/

namespace OfApp

set_option linter.unusedVariables false

/-! ## Single-precision floats -/

/-- An IEEE-754 binary32 value, given by its three bit fields: the sign bit, the
biased exponent (8 bits) and the trailing significand (23 bits). -/
structure Float32 where
  sign : Bool
  exponent : Nat
  mantissa : Nat
deriving DecidableEq, Repr

/-- Worker for `ilog2`: halve until below two, counting the steps. -/
def ilog2Aux : Nat → Nat → Nat
  | 0, _ => 0
  | fuel + 1, n => if n < 2 then 0 else ilog2Aux fuel (n / 2) + 1

/-- Position of the highest set bit of `n` (and `0` for `n = 0`). -/
def ilog2 (n : Nat) : Nat := ilog2Aux n n

namespace Float32

/-- The rational number a finite binary32 value stands for; `none` for the
infinities and NaNs (exponent field all ones). Subnormals (exponent field `0`)
have no hidden bit. -/
def toRat (f : Float32) : Option ℚ :=
  if f.exponent = 255 then none
  else
    let sgn : ℚ := if f.sign then -1 else 1
    if f.exponent = 0 then some (sgn * ((f.mantissa : ℚ) / 2 ^ 149))
    else some (sgn * (((2 ^ 23 + f.mantissa : Nat) : ℚ) * 2 ^ f.exponent / 2 ^ 150))

/-- Magnitude part of the `int → float` conversion: the exponent and mantissa
fields of the binary32 value nearest to `a > 0` (ties to even).  A magnitude
below `2^24` fits the 24-bit significand and is only shifted; a larger one is
cut to its 24 leading bits and rounded on the bits cut off. -/
def ofNatFields (a : Nat) : Nat × Nat :=
  let e := ilog2 a
  if a < 2 ^ 24 then
    (e + 127, a * 2 ^ (23 - e) - 2 ^ 23)
  else
    let k := e - 23
    let q := a / 2 ^ k
    let r := a % 2 ^ k
    let half := 2 ^ (k - 1)
    let q1 := if half < r ∨ (r = half ∧ q % 2 = 1) then q + 1 else q
    let em : Nat × Nat := if q1 = 2 ^ 24 then (e + 1 + 127, 0) else (e + 127, q1 - 2 ^ 23)
    if 255 ≤ em.1 then (255, 0) else em

/-- The implicit conversion `float f = i;` of a C++ `int` (any integer is accepted
here; an `int` is one with `-2^31 ≤ i < 2^31`): round to nearest, ties to even. -/
def ofInt (i : Int) : Float32 :=
  if i = 0 then ⟨false, 0, 0⟩
  else
    let em := ofNatFields i.natAbs
    ⟨decide (i < 0), em.1, em.2⟩

end Float32

/-! ## Host drawing calls -/

/-- The calls into the host framework that `ofApp.cpp` makes, with their actual
arguments: `ofBackground(int brightness)`, `ofSetColor(int r, int g, int b)` and
`ofDrawCircle(float x, float y, float radius)`. The host header `ofMain.h` is not
among the sources; the parameter types are those of the host's API. -/
inductive Cmd where
  | ofBackground (brightness : Int)
  | ofSetColor (r g b : Int)
  | ofDrawCircle (x y radius : Float32)
deriving DecidableEq, Repr

/-! ## The application object -/

/-- Data members of `class ofApp` (`ofApp.h`, lines 11-12). -/
structure AppState where
  showCircle : Bool
  circleX : Float32
  circleY : Float32
deriving DecidableEq, Repr

/-- A freshly constructed `ofApp`: `showCircle = false` by its member initialiser,
`circleX` and `circleY` uninitialised, hence whatever `cx`, `cy` happen to be. -/
def AppState.init (cx cy : Float32) : AppState :=
  { showCircle := false, circleX := cx, circleY := cy }

/-- `ofApp::setup` (`ofApp.cpp`, lines 3-5). -/
def setup (s : AppState) : AppState × List Cmd :=
  (s, [Cmd.ofBackground 0])

/-- `ofApp::draw` (`ofApp.cpp`, lines 7-12). The literal `30` is converted to the
`float radius` parameter of `ofDrawCircle`. -/
def draw (s : AppState) : AppState × List Cmd :=
  if s.showCircle then
    (s, [Cmd.ofSetColor 255 100 100,
         Cmd.ofDrawCircle s.circleX s.circleY (Float32.ofInt 30)])
  else
    (s, [])

/-- `ofApp::mousePressed` (`ofApp.cpp`, lines 14-18). -/
def mousePressed (s : AppState) (x y button : Int) : AppState × List Cmd :=
  let s1 := { s with circleX := Float32.ofInt x }
  let s2 := { s1 with circleY := Float32.ofInt y }
  let s3 := { s2 with showCircle := true }
  (s3, [])

/-! ## The host driving the hooks -/

/-- One call of the host into the application object. -/
inductive Hook where
  | setup
  | draw
  | mousePressed (x y button : Int)
deriving DecidableEq, Repr

/-- Effect of one hook call: the next state and the drawing calls issued. -/
def step (s : AppState) : Hook → AppState × List Cmd
  | Hook.setup => setup s
  | Hook.draw => draw s
  | Hook.mousePressed x y button => mousePressed s x y button

/-- State after a sequence of hook calls. -/
def run (s : AppState) : List Hook → AppState
  | [] => s
  | h :: hs => run (step s h).1 hs

/-- Drawing calls issued by each hook call of a sequence, in order. -/
def trace (s : AppState) : List Hook → List (List Cmd)
  | [] => []
  | h :: hs => (step s h).2 :: trace (step s h).1 hs

/-- Coordinates passed to the last `mousePressed` call of a sequence, if any. -/
def lastPress : List Hook → Option (Int × Int)
  | [] => none
  | Hook.mousePressed x y _ :: hs =>
      match lastPress hs with
      | some p => some p
      | none => some (x, y)
  | _ :: hs => lastPress hs

/-- A sequence of hook calls without any `mousePressed`. -/
def noPress (hs : List Hook) : Bool :=
  hs.all fun h => match h with
    | Hook.mousePressed _ _ _ => false
    | _ => true

/-! ## What the host paints -/

/-- A circle as the host paints it: the draw colour current at the time of the
`ofDrawCircle` call, and the call's arguments. -/
structure Circle where
  colour : Int × Int × Int
  x : Float32
  y : Float32
  radius : Float32
deriving DecidableEq, Repr

/-- Modelled from the spec: the host's drawing state (`ofMain.h` and the host
library are not among the sources). Reading of a command sequence, starting with
draw colour `colour`: set-draw-color replaces the current draw colour,
draw-filled-circle paints a circle in it, set-background-color paints no circle. -/
def circlesDrawn (colour : Int × Int × Int) : List Cmd → List Circle
  | [] => []
  | Cmd.ofBackground _ :: cs => circlesDrawn colour cs
  | Cmd.ofSetColor r g b :: cs => circlesDrawn (r, g, b) cs
  | Cmd.ofDrawCircle x y radius :: cs => ⟨colour, x, y, radius⟩ :: circlesDrawn colour cs

/-- Modelled from the spec: the host's `ofBackground(int brightness)` (`ofMain.h` is
not among the sources). The colour the call clears to: the one-argument overload
takes a grey level, the same value for red, green and blue, so that
`ofBackground(0)` is the spec's set-background-color(0,0,0), black. -/
def backgroundRGB : Cmd → Option (Int × Int × Int)
  | Cmd.ofBackground brightness => some (brightness, brightness, brightness)
  | _ => none

/-- The command is an `ofDrawCircle` call. -/
def Cmd.isCircle : Cmd → Bool
  | Cmd.ofDrawCircle _ _ _ => true
  | _ => false

/-- The command is an `ofSetColor` call. -/
def Cmd.isSetColor : Cmd → Bool
  | Cmd.ofSetColor _ _ _ => true
  | _ => false

/-- The float `f` holds exactly the integer `i`. -/
def Float32.Holds (f : Float32) (i : Int) : Prop := f.toRat = some (i : ℚ)

/-- The command is a circle whose centre is exactly the integer point `(x, y)`. -/
def Cmd.CentredAt : Cmd → Int → Int → Prop
  | Cmd.ofDrawCircle cx cy _, x, y => cx.Holds x ∧ cy.Holds y
  | _, _, _ => False

/-! ## Properties under study -/

/-- Rendering right after a press at `(x0, y0)` paints exactly one circle, centred
exactly at `(x0, y0)`, of radius 30, in colour (255,100,100), whatever the draw
colour was before. -/
def PressDrawsCircleAt (s : AppState) (x0 y0 button : Int) : Prop :=
  ∀ c0, ∃ c : Circle,
    circlesDrawn c0 (draw (mousePressed s x0 y0 button).1).2 = [c] ∧
    c.x.Holds x0 ∧ c.y.Holds y0 ∧ c.radius.Holds 30 ∧ c.colour = (255, 100, 100)

/-- After a press at `(x, y)` the state has `circleX = x`, `circleY = y` (exactly)
and `showCircle = true`. -/
def PressStores (s : AppState) (x y button : Int) : Prop :=
  (mousePressed s x y button).1.circleX.Holds x ∧
  (mousePressed s x y button).1.circleY.Holds y ∧
  (mousePressed s x y button).1.showCircle = true

/-- After a press at `(x0, y0)` and then one at `(x1, y1)`: the state is the one the
second press alone gives, `draw` issues a single circle, centred exactly at
`(x1, y1)`, and no command centred at `(x0, y0)`. -/
def SecondPressOnly (s : AppState) (x0 y0 b0 x1 y1 b1 : Int) : Prop :=
  (mousePressed (mousePressed s x0 y0 b0).1 x1 y1 b1).1 = (mousePressed s x1 y1 b1).1 ∧
  (∃ c, (draw (mousePressed (mousePressed s x0 y0 b0).1 x1 y1 b1).1).2.filter Cmd.isCircle = [c]
      ∧ c.CentredAt x1 y1) ∧
  (∀ c ∈ (draw (mousePressed (mousePressed s x0 y0 b0).1 x1 y1 b1).1).2, ¬ c.CentredAt x0 y0)

/-- In the state reached from a fresh object by the calls `hs`: if `showCircle` is
set then some press occurred and `circleX`, `circleY` are exactly the coordinates
of the last one. -/
def HoldsLastPress (cx cy : Float32) (hs : List Hook) : Prop :=
  (run (AppState.init cx cy) hs).showCircle = true →
    ∃ x y, lastPress hs = some (x, y) ∧
      (run (AppState.init cx cy) hs).circleX.Holds x ∧
      (run (AppState.init cx cy) hs).circleY.Holds y

/-! ## Lemmas on the conversion -/

theorem ilog2Aux_bounds (fuel : Nat) :
    ∀ n, n ≤ fuel → 0 < n → 2 ^ ilog2Aux fuel n ≤ n ∧ n < 2 ^ (ilog2Aux fuel n + 1) := by
  induction fuel with
  | zero => intro n h1 h2; omega
  | succ fuel ih =>
    intro n h1 h2
    unfold ilog2Aux
    by_cases hn : n < 2
    · simp only [hn, if_true]
      constructor <;> simp <;> omega
    · simp only [hn, if_false]
      have h := ih (n / 2) (by omega) (by omega)
      rw [pow_succ, pow_succ]
      rw [pow_succ] at h
      omega

theorem ilog2_bounds (n : Nat) (h : 0 < n) : 2 ^ ilog2 n ≤ n ∧ n < 2 ^ (ilog2 n + 1) :=
  ilog2Aux_bounds n n le_rfl h

/-- A magnitude below `2^24` is converted without rounding. -/
theorem toRat_ofNatFields_exact (sg : Bool) (a : Nat) (h0 : 0 < a) (h : a < 2 ^ 24) :
    Float32.toRat ⟨sg, (Float32.ofNatFields a).1, (Float32.ofNatFields a).2⟩
      = some ((if sg then -1 else 1) * (a : ℚ)) := by
  obtain ⟨hlo, hhi⟩ := ilog2_bounds a h0
  have he : ilog2 a ≤ 23 := by
    by_contra hc
    have : 2 ^ 24 ≤ 2 ^ ilog2 a := Nat.pow_le_pow_right (by norm_num) (by omega)
    omega
  have hsplit : 2 ^ (23 - ilog2 a) * 2 ^ (ilog2 a + 127) = 2 ^ 150 := by
    have e : 23 - ilog2 a + (ilog2 a + 127) = 150 := by omega
    rw [← pow_add, e]
  have hge : 2 ^ 23 ≤ a * 2 ^ (23 - ilog2 a) := by
    have e : ilog2 a + (23 - ilog2 a) = 23 := by omega
    have hp : 2 ^ ilog2 a * 2 ^ (23 - ilog2 a) = 2 ^ 23 := by rw [← pow_add, e]
    rw [← hp]
    exact Nat.mul_le_mul_right _ hlo
  have hm : 2 ^ 23 + (a * 2 ^ (23 - ilog2 a) - 2 ^ 23) = a * 2 ^ (23 - ilog2 a) := by omega
  have hq : ((a * 2 ^ (23 - ilog2 a) : Nat) : ℚ) * 2 ^ (ilog2 a + 127) / 2 ^ 150 = (a : ℚ) := by
    have h2 : ((2 : ℚ) ^ (23 - ilog2 a)) * 2 ^ (ilog2 a + 127) = 2 ^ 150 := by exact_mod_cast hsplit
    rw [Nat.cast_mul, Nat.cast_pow, Nat.cast_ofNat, mul_assoc, h2, mul_div_assoc,
      div_self (pow_ne_zero 150 two_ne_zero), mul_one]
  unfold Float32.ofNatFields Float32.toRat
  simp only [h, if_true]
  have e1 : ¬ (ilog2 a + 127 = 255) := by omega
  have e2 : ¬ (ilog2 a + 127 = 0) := by omega
  simp only [e1, e2, if_false, hm, hq]

/-- Every integer of magnitude at most `2^24` survives `int → float` unchanged. -/
theorem ofInt_exact (i : Int) (h : |i| ≤ 2 ^ 24) : (Float32.ofInt i).Holds i := by
  unfold Float32.Holds
  by_cases hz : i = 0
  · subst hz; simp [Float32.ofInt, Float32.toRat]
  · obtain ⟨n, hn⟩ : ∃ n : Nat, n = i.natAbs := ⟨_, rfl⟩
    have hb := abs_le.mp h
    have hpos : 0 < n := by omega
    have hle : n ≤ 2 ^ 24 := by omega
    have hval : (if decide (i < 0) = true then (-1 : ℚ) else 1) * (n : ℚ) = (i : ℚ) := by
      by_cases hneg : i < 0
      · have hi : i = -(n : Int) := by omega
        simp only [hneg, decide_True, if_true]
        rw [hi]; push_cast; ring
      · have hi : i = (n : Int) := by omega
        simp only [hneg, decide_False, Bool.false_eq_true, if_false]
        rw [hi]; push_cast; ring
    rcases Nat.lt_or_ge n (2 ^ 24) with hlt | hge
    · have key := toRat_ofNatFields_exact (decide (i < 0)) n hpos hlt
      simp only [Float32.ofInt, hz, if_false, ← hn]
      rw [key, hval]
    · have hi : i = 2 ^ 24 ∨ i = -(2 ^ 24) := by omega
      rcases hi with rfl | rfl
      · have hf : Float32.ofInt (2 ^ 24) = ⟨false, 151, 0⟩ := by decide
        rw [hf]; norm_num [Float32.toRat]
      · have hf : Float32.ofInt (-(2 ^ 24)) = ⟨true, 151, 0⟩ := by decide
        rw [hf]; norm_num [Float32.toRat]

/-- A float holds at most one integer. -/
theorem holds_unique {f : Float32} {i j : Int} (hi : f.Holds i) (hj : f.Holds j) : i = j := by
  unfold Float32.Holds at hi hj
  rw [hi] at hj
  exact_mod_cast Option.some.inj hj

theorem ofInt_30_holds : (Float32.ofInt 30).Holds 30 := ofInt_exact 30 (by norm_num)

/-- The first `int` that `float` cannot hold: `2^24 + 1` is stored as `2^24`. -/
theorem ofInt_16777217 : Float32.ofInt 16777217 = Float32.ofInt 16777216 := by
  have h1 : Float32.ofInt 16777217 = ⟨false, 151, 0⟩ := by decide
  have h2 : Float32.ofInt 16777216 = ⟨false, 151, 0⟩ := by decide
  rw [h1, h2]

theorem ofInt_16777217_not_exact : ¬ (Float32.ofInt 16777217).Holds 16777217 := by
  intro h
  rw [ofInt_16777217] at h
  have := holds_unique h (ofInt_exact 16777216 (by norm_num))
  omega

theorem ofInt_neg_16777217_not_exact : ¬ (Float32.ofInt (-16777217)).Holds (-16777217) := by
  intro h
  have h1 : Float32.ofInt (-16777217) = ⟨true, 151, 0⟩ := by decide
  have h2 : Float32.ofInt (-16777216) = ⟨true, 151, 0⟩ := by decide
  have e : Float32.ofInt (-16777217) = Float32.ofInt (-16777216) := by rw [h1, h2]
  rw [e] at h
  have := holds_unique h (ofInt_exact (-16777216) (by norm_num))
  omega

/-- Ties go to the even significand: `2^24 + 3` is stored as `2^24 + 4`. -/
theorem ofInt_ties_to_even : (Float32.ofInt 16777219).Holds 16777220 := by
  have e : Float32.ofInt 16777219 = ⟨false, 151, 2⟩ := by decide
  rw [e]; norm_num [Float32.Holds, Float32.toRat]

/-- `INT_MAX` is stored as `2^31`. -/
theorem ofInt_intMax_not_exact : ¬ (Float32.ofInt 2147483647).Holds 2147483647 := by
  intro h
  have e : Float32.ofInt 2147483647 = ⟨false, 158, 0⟩ := by decide
  have h2 : (Float32.ofInt 2147483647).Holds 2147483648 := by
    rw [e]; norm_num [Float32.Holds, Float32.toRat]
  have := holds_unique h h2
  omega

/-! ## Lemmas on the hooks -/

theorem mousePressed_state (s : AppState) (x y button : Int) :
    (mousePressed s x y button).1 = ⟨true, Float32.ofInt x, Float32.ofInt y⟩ := rfl

theorem draw_shown (cx cy : Float32) :
    (draw ⟨true, cx, cy⟩).2 =
      [Cmd.ofSetColor 255 100 100, Cmd.ofDrawCircle cx cy (Float32.ofInt 30)] := rfl

theorem draw_hidden (cx cy : Float32) : (draw ⟨false, cx, cy⟩).2 = [] := rfl

theorem draw_state (s : AppState) : (draw s).1 = s := by
  unfold draw; split <;> rfl

theorem run_append (s : AppState) (hs1 hs2 : List Hook) :
    run s (hs1 ++ hs2) = run (run s hs1) hs2 := by
  induction hs1 generalizing s with
  | nil => rfl
  | cons h hs1 ih => exact ih (step s h).1

theorem step_showCircle (s : AppState) (h : Hook) (hs : s.showCircle = true) :
    (step s h).1.showCircle = true := by
  cases h with
  | setup => exact hs
  | draw => rw [step, draw_state]; exact hs
  | mousePressed x y b => rfl

theorem run_showCircle (hs : List Hook) :
    ∀ s : AppState, s.showCircle = true → (run s hs).showCircle = true := by
  induction hs with
  | nil => intro s h; exact h
  | cons k hs ih => intro s h; exact ih _ (step_showCircle s k h)

theorem run_noPress (hs : List Hook) :
    ∀ s : AppState, noPress hs = true → run s hs = s := by
  induction hs with
  | nil => intro s _; rfl
  | cons k hs ih =>
    intro s h
    cases k with
    | setup => exact ih s (by simpa [noPress] using h)
    | draw =>
      have h2 : noPress hs = true := by simpa [noPress] using h
      simp only [run, step, draw_state]; exact ih s h2
    | mousePressed x y b => simp [noPress] at h

/-- The state after any call sequence is fixed by the last press alone. -/
theorem run_lastPress (hs : List Hook) :
    ∀ s : AppState, run s hs =
      match lastPress hs with
      | some p => ⟨true, Float32.ofInt p.1, Float32.ofInt p.2⟩
      | none => s := by
  induction hs with
  | nil => intro s; rfl
  | cons k hs ih =>
    intro s
    cases k with
    | setup => simp only [run, step, setup, lastPress]; exact ih s
    | draw => simp only [run, step, draw_state, lastPress]; exact ih s
    | mousePressed x y b =>
      simp only [run, step, lastPress]
      rw [ih]
      cases lastPress hs with
      | some p => rfl
      | none => rfl

theorem trace_replicate_draw (s : AppState) (n : Nat) :
    trace s (List.replicate n Hook.draw) = List.replicate n (draw s).2 := by
  induction n with
  | zero => rfl
  | succ n ih => simp only [List.replicate_succ, trace, step, draw_state, ih]

theorem trace_noPress (hs : List Hook) :
    ∀ s : AppState, s.showCircle = false → noPress hs = true →
      ∀ cmds ∈ trace s hs, cmds = [] ∨ cmds = [Cmd.ofBackground 0] := by
  induction hs with
  | nil => intro s _ _ cmds hc; simp [trace] at hc
  | cons k hs ih =>
    intro s hsc h cmds hc
    cases k with
    | setup =>
      have h2 : noPress hs = true := by simpa [noPress] using h
      simp only [trace, step, setup, List.mem_cons] at hc
      rcases hc with rfl | hc
      · exact Or.inr rfl
      · exact ih s hsc h2 cmds hc
    | draw =>
      have h2 : noPress hs = true := by simpa [noPress] using h
      simp only [trace, step, draw_state, List.mem_cons] at hc
      rcases hc with rfl | hc
      · left; simp [draw, hsc]
      · exact ih s hsc h2 cmds hc
    | mousePressed x y b => simp [noPress] at h

/-! ## The claims -/

/-- C1 (as stated, refuted): after a press at `x0 = 2^24 + 1 = 16777217` the circle
that `draw` issues is not centred at `(x0, y0)`; `circleX` holds `16777216`. -/
theorem press_then_draw_inexact :
    ¬ PressDrawsCircleAt (AppState.init ⟨false, 0, 0⟩ ⟨false, 0, 0⟩) 16777217 0 0 := by
  intro h
  obtain ⟨c, hc, hx, -⟩ := h (0, 0, 0)
  rw [mousePressed_state, draw_shown] at hc
  simp only [circlesDrawn, List.cons.injEq, and_true] at hc
  subst hc
  exact ofInt_16777217_not_exact hx

/-- C1 (amended): for every state and every press, `draw` on the state right after
the press issues exactly one circle, in draw colour (255,100,100), radius 30, centred
at the `float` conversions of `x0`, `y0`; when `|x0| ≤ 2^24` and `|y0| ≤ 2^24` the
centre is exactly `(x0, y0)`. -/
theorem press_then_draw (s : AppState) (x0 y0 button : Int) :
    (∀ c0, circlesDrawn c0 (draw (mousePressed s x0 y0 button).1).2
        = [⟨(255, 100, 100), Float32.ofInt x0, Float32.ofInt y0, Float32.ofInt 30⟩]) ∧
    ((draw (mousePressed s x0 y0 button).1).2.filter Cmd.isCircle).length = 1 ∧
    (Float32.ofInt 30).Holds 30 ∧
    (|x0| ≤ 2 ^ 24 → |y0| ≤ 2 ^ 24 → PressDrawsCircleAt s x0 y0 button) := by
  refine ⟨fun c0 => rfl, rfl, ofInt_30_holds, fun hx hy c0 => ?_⟩
  exact ⟨_, rfl, ofInt_exact x0 hx, ofInt_exact y0 hy, ofInt_30_holds, rfl⟩

theorem press_then_draw_witness :
    |(50 : Int)| ≤ 2 ^ 24 ∧ |(80 : Int)| ≤ 2 ^ 24 ∧
      PressDrawsCircleAt (AppState.init ⟨false, 0, 0⟩ ⟨false, 0, 0⟩) 50 80 0 :=
  ⟨by norm_num, by norm_num,
    (press_then_draw (AppState.init ⟨false, 0, 0⟩ ⟨false, 0, 0⟩) 50 80 0).2.2.2
      (by norm_num) (by norm_num)⟩

/-- C2 (as stated, refuted): after presses at `(16777216, 7)` and then
`(16777217, 7)` the circle drawn is centred at the first press, not the second;
and after two presses at the same point `(5, 5)` the circle drawn is centred at
the first press's coordinates. -/
theorem second_press_only_fails :
    ¬ SecondPressOnly (AppState.init ⟨false, 0, 0⟩ ⟨false, 0, 0⟩) 16777216 7 0 16777217 7 0 ∧
    ¬ SecondPressOnly (AppState.init ⟨false, 0, 0⟩ ⟨false, 0, 0⟩) 5 5 0 5 5 0 := by
  constructor
  · rintro ⟨-, ⟨c, hc, hcen⟩, -⟩
    rw [mousePressed_state, draw_shown] at hc
    simp only [List.filter, Cmd.isCircle, List.cons.injEq, and_true] at hc
    subst hc
    exact ofInt_16777217_not_exact hcen.1
  · rintro ⟨-, -, h⟩
    refine h (Cmd.ofDrawCircle (Float32.ofInt 5) (Float32.ofInt 5) (Float32.ofInt 30)) ?_ ?_
    · rw [mousePressed_state, draw_shown]; simp
    · exact ⟨ofInt_exact 5 (by norm_num), ofInt_exact 5 (by norm_num)⟩

/-- C2 (amended): the state after two presses is the state after the second alone,
and `draw` then issues the colour command and a single circle at the `float`
conversions of `(x1, y1)`; when `|x1| ≤ 2^24`, `|y1| ≤ 2^24` and the two presses
are at different points, that circle is exactly at `(x1, y1)` and no command is
centred at `(x0, y0)`. The trace setup, draw, press (50,80), draw, press (10,10),
draw issues no circle, then one at (50,80), then one at (10,10) only. -/
theorem second_press_overwrites (s : AppState) (x0 y0 b0 x1 y1 b1 : Int) :
    (mousePressed (mousePressed s x0 y0 b0).1 x1 y1 b1).1 = (mousePressed s x1 y1 b1).1 ∧
    (draw (mousePressed (mousePressed s x0 y0 b0).1 x1 y1 b1).1).2 =
      [Cmd.ofSetColor 255 100 100,
       Cmd.ofDrawCircle (Float32.ofInt x1) (Float32.ofInt y1) (Float32.ofInt 30)] ∧
    (|x1| ≤ 2 ^ 24 → |y1| ≤ 2 ^ 24 → (x0, y0) ≠ (x1, y1) →
      SecondPressOnly s x0 y0 b0 x1 y1 b1) ∧
    (∀ cx cy b b2, trace (AppState.init cx cy)
        [Hook.setup, Hook.draw, Hook.mousePressed 50 80 b, Hook.draw,
         Hook.mousePressed 10 10 b2, Hook.draw] =
        [[Cmd.ofBackground 0], [], [],
         [Cmd.ofSetColor 255 100 100,
          Cmd.ofDrawCircle (Float32.ofInt 50) (Float32.ofInt 80) (Float32.ofInt 30)], [],
         [Cmd.ofSetColor 255 100 100,
          Cmd.ofDrawCircle (Float32.ofInt 10) (Float32.ofInt 10) (Float32.ofInt 30)]]) ∧
    (Float32.ofInt 50).Holds 50 ∧ (Float32.ofInt 80).Holds 80 ∧
    (Float32.ofInt 10).Holds 10 ∧ (Float32.ofInt 30).Holds 30 := by
  refine ⟨rfl, rfl, ?_, fun cx cy b b2 => rfl, ofInt_exact 50 (by norm_num),
    ofInt_exact 80 (by norm_num), ofInt_exact 10 (by norm_num), ofInt_30_holds⟩
  intro hx hy hne
  refine ⟨rfl, ⟨_, rfl, ofInt_exact x1 hx, ofInt_exact y1 hy⟩, ?_⟩
  intro c hc hcen
  rw [mousePressed_state, draw_shown] at hc
  simp only [List.mem_cons, List.mem_singleton, List.not_mem_nil, or_false] at hc
  rcases hc with rfl | rfl
  · exact hcen
  · apply hne
    rw [holds_unique hcen.1 (ofInt_exact x1 hx), holds_unique hcen.2 (ofInt_exact y1 hy)]

theorem second_press_overwrites_witness :
    |(10 : Int)| ≤ 2 ^ 24 ∧ ((50 : Int), (80 : Int)) ≠ (10, 10) ∧
      SecondPressOnly (AppState.init ⟨false, 0, 0⟩ ⟨false, 0, 0⟩) 50 80 0 10 10 0 :=
  ⟨by norm_num, by decide,
    (second_press_overwrites (AppState.init ⟨false, 0, 0⟩ ⟨false, 0, 0⟩) 50 80 0 10 10 0).2.2.1
      (by norm_num) (by norm_num) (by decide)⟩

/-- C3: in a fresh object (`showCircle = false`, `circleX`, `circleY` arbitrary) and
after any sequence of `setup` and `draw` calls without a `mousePressed`, the state
is still the fresh one and `draw` issues no command at all; no call of the
sequence issued a circle. -/
theorem no_press_no_circle (cx cy : Float32) (hs : List Hook) (h : noPress hs = true) :
    (draw (AppState.init cx cy)).2 = [] ∧
    run (AppState.init cx cy) hs = AppState.init cx cy ∧
    (draw (run (AppState.init cx cy) hs)).2 = [] ∧
    (∀ cmds ∈ trace (AppState.init cx cy) hs, ∀ c ∈ cmds, c.isCircle = false) := by
  refine ⟨rfl, run_noPress hs _ h, ?_, ?_⟩
  · rw [run_noPress hs _ h]; rfl
  · intro cmds hc c hmem
    rcases trace_noPress hs (AppState.init cx cy) rfl h cmds hc with rfl | rfl
    · simp at hmem
    · simp only [List.mem_singleton] at hmem
      subst hmem; rfl

theorem no_press_no_circle_witness :
    noPress [Hook.setup, Hook.draw, Hook.draw] = true ∧
      (draw (run (AppState.init ⟨true, 255, 1⟩ ⟨false, 3, 9⟩)
        [Hook.setup, Hook.draw, Hook.draw])).2 = [] :=
  ⟨by decide,
    (no_press_no_circle ⟨true, 255, 1⟩ ⟨false, 3, 9⟩ [Hook.setup, Hook.draw, Hook.draw]
      (by decide)).2.2.1⟩

/-- C4: from a state with `showCircle = true`, every single hook call (`setup`,
`draw`, `mousePressed` with any arguments) and every sequence of hook calls leaves
`showCircle = true`; so along any run, once it is true it stays true. -/
theorem showCircle_never_cleared (s : AppState) (h : s.showCircle = true) :
    (∀ k : Hook, (step s k).1.showCircle = true) ∧
    (∀ hs : List Hook, (run s hs).showCircle = true) ∧
    (∀ (s0 : AppState) (pre post : List Hook), run s0 pre = s →
      (run s0 (pre ++ post)).showCircle = true) := by
  refine ⟨fun k => step_showCircle s k h, fun hs => run_showCircle hs s h, ?_⟩
  intro s0 pre post hpre
  rw [run_append, hpre]
  exact run_showCircle post s h

theorem showCircle_never_cleared_witness :
    (AppState.mk true ⟨false, 0, 0⟩ ⟨false, 0, 0⟩).showCircle = true ∧
      (run (AppState.mk true ⟨false, 0, 0⟩ ⟨false, 0, 0⟩)
        [Hook.draw, Hook.setup, Hook.mousePressed 1 2 3, Hook.draw]).showCircle = true :=
  ⟨rfl, (showCircle_never_cleared (AppState.mk true ⟨false, 0, 0⟩ ⟨false, 0, 0⟩) rfl).2.1
    [Hook.draw, Hook.setup, Hook.mousePressed 1 2 3, Hook.draw]⟩

/-- C5 (as stated, refuted): after setup, press (3,4), draw, press (2147483647,4),
draw the flag is set and the last press was at `x = 2147483647`, but `circleX`
holds `2147483648`. -/
theorem holdsLastPress_fails :
    ¬ HoldsLastPress ⟨false, 0, 0⟩ ⟨false, 0, 0⟩
      [Hook.setup, Hook.mousePressed 3 4 0, Hook.draw,
       Hook.mousePressed 2147483647 4 1, Hook.draw] := by
  intro h
  obtain ⟨x, y, hl, hx, -⟩ := h rfl
  have hl2 : lastPress [Hook.setup, Hook.mousePressed 3 4 0, Hook.draw,
      Hook.mousePressed 2147483647 4 1, Hook.draw] = some (2147483647, 4) := rfl
  rw [hl2] at hl
  obtain ⟨rfl, rfl⟩ := Prod.mk.inj (Option.some.inj hl)
  rw [run_lastPress, hl2] at hx
  exact ofInt_intMax_not_exact hx

/-- C5 (amended): in every state reachable from a fresh object, if `showCircle` is
true then a `mousePressed` call occurred and `circleX`, `circleY` are the `float`
conversions of the coordinates of the most recent one; they are exactly those
coordinates when both have magnitude at most `2^24`. -/
theorem showCircle_gives_last_press (cx cy : Float32) (hs : List Hook)
    (h : (run (AppState.init cx cy) hs).showCircle = true) :
    ∃ x y, lastPress hs = some (x, y) ∧
      (run (AppState.init cx cy) hs).circleX = Float32.ofInt x ∧
      (run (AppState.init cx cy) hs).circleY = Float32.ofInt y ∧
      (|x| ≤ 2 ^ 24 → |y| ≤ 2 ^ 24 →
        (run (AppState.init cx cy) hs).circleX.Holds x ∧
        (run (AppState.init cx cy) hs).circleY.Holds y) := by
  rw [run_lastPress] at h ⊢
  cases hl : lastPress hs with
  | none => simp [hl, AppState.init] at h
  | some p =>
    exact ⟨p.1, p.2, rfl, rfl, rfl, fun hx hy => ⟨ofInt_exact p.1 hx, ofInt_exact p.2 hy⟩⟩

theorem showCircle_gives_last_press_witness :
    (run (AppState.init ⟨false, 0, 0⟩ ⟨false, 0, 0⟩)
        [Hook.setup, Hook.mousePressed 50 80 0, Hook.draw]).showCircle = true ∧
    ∃ x y, lastPress [Hook.setup, Hook.mousePressed 50 80 0, Hook.draw] = some (x, y) ∧
      (run (AppState.init ⟨false, 0, 0⟩ ⟨false, 0, 0⟩)
        [Hook.setup, Hook.mousePressed 50 80 0, Hook.draw]).circleX = Float32.ofInt x ∧
      (run (AppState.init ⟨false, 0, 0⟩ ⟨false, 0, 0⟩)
        [Hook.setup, Hook.mousePressed 50 80 0, Hook.draw]).circleY = Float32.ofInt y ∧
      (|x| ≤ 2 ^ 24 → |y| ≤ 2 ^ 24 →
        (run (AppState.init ⟨false, 0, 0⟩ ⟨false, 0, 0⟩)
          [Hook.setup, Hook.mousePressed 50 80 0, Hook.draw]).circleX.Holds x ∧
        (run (AppState.init ⟨false, 0, 0⟩ ⟨false, 0, 0⟩)
          [Hook.setup, Hook.mousePressed 50 80 0, Hook.draw]).circleY.Holds y) :=
  ⟨rfl, showCircle_gives_last_press ⟨false, 0, 0⟩ ⟨false, 0, 0⟩
    [Hook.setup, Hook.mousePressed 50 80 0, Hook.draw] rfl⟩

/-- C6 (as stated, refuted): after `mousePressed(7, -16777217, 2)` the field
`circleY` does not hold `-16777217` (it holds `-16777216`). -/
theorem pressStores_fails :
    ¬ PressStores (AppState.init ⟨false, 0, 0⟩ ⟨false, 0, 0⟩) 7 (-16777217) 2 := by
  rintro ⟨-, hy, -⟩
  exact ofInt_neg_16777217_not_exact hy

/-- C6 (amended): `mousePressed(x, y, button)` unconditionally produces the state
`showCircle = true`, `circleX = (float) x`, `circleY = (float) y`, the same for every
prior state and every button; when `|x| ≤ 2^24` and `|y| ≤ 2^24` the two fields are
exactly `x` and `y`. -/
theorem press_unconditional (s1 s2 : AppState) (x y b1 b2 : Int) :
    mousePressed s1 x y b1 = mousePressed s2 x y b2 ∧
    (mousePressed s1 x y b1).1 = ⟨true, Float32.ofInt x, Float32.ofInt y⟩ ∧
    (|x| ≤ 2 ^ 24 → |y| ≤ 2 ^ 24 → PressStores s1 x y b1) :=
  ⟨rfl, rfl, fun hx hy => ⟨ofInt_exact x hx, ofInt_exact y hy, rfl⟩⟩

theorem press_unconditional_witness :
    |(7 : Int)| ≤ 2 ^ 24 ∧ |(-16777216 : Int)| ≤ 2 ^ 24 ∧
      PressStores (AppState.init ⟨false, 0, 0⟩ ⟨false, 0, 0⟩) 7 (-16777216) 2 :=
  ⟨by norm_num, by norm_num,
    (press_unconditional (AppState.init ⟨false, 0, 0⟩ ⟨false, 0, 0⟩)
      (AppState.init ⟨false, 0, 0⟩ ⟨false, 0, 0⟩) 7 (-16777216) 2 2).2.2
      (by norm_num) (by norm_num)⟩

/-- C7: `draw` with `showCircle = false` issues no command; with `showCircle = true`
it issues exactly `ofSetColor(255,100,100)` and then
`ofDrawCircle(circleX, circleY, 30)`, the radius being exactly 30; nothing else. -/
theorem draw_commands (s : AppState) :
    (draw s).2 =
      (if s.showCircle then
        [Cmd.ofSetColor 255 100 100,
         Cmd.ofDrawCircle s.circleX s.circleY (Float32.ofInt 30)]
      else []) ∧
    (Float32.ofInt 30).Holds 30 := by
  refine ⟨?_, ofInt_30_holds⟩
  unfold draw
  split <;> rfl

/-- C8: `setup` and `draw` leave the state (all of `showCircle`, `circleX`,
`circleY`) unchanged, and so does any call sequence without a press; `draw`
called `n` times in a row issues the same command sequence each time. -/
theorem only_press_mutates (s : AppState) :
    (setup s).1 = s ∧ (draw s).1 = s ∧
    (∀ hs, noPress hs = true → run s hs = s) ∧
    (∀ n, trace s (List.replicate n Hook.draw) = List.replicate n (draw s).2) :=
  ⟨rfl, draw_state s, fun hs h => run_noPress hs s h, trace_replicate_draw s⟩

/-- C9: `setup`, from any state, issues exactly one command, `ofBackground(0)`,
which clears to RGB (0,0,0); it issues no `ofSetColor` and no `ofDrawCircle`. -/
theorem setup_commands (s : AppState) :
    (setup s).2 = [Cmd.ofBackground 0] ∧
    (setup s).2.map backgroundRGB = [some (0, 0, 0)] ∧
    (setup s).2.any Cmd.isSetColor = false ∧
    (setup s).2.any Cmd.isCircle = false :=
  ⟨rfl, rfl, rfl, rfl⟩

/-- C10: `mousePressed` stores its `int` coordinates in `float` fields; when
`|x| ≤ 2^24` and `|y| ≤ 2^24` the stored `circleX`, `circleY`, and the centre of the
circle then drawn, are exactly `x` and `y`; for the `int` `2^24 + 1 = 16777217` the
stored value is `16777216`, not the pressed coordinate. -/
theorem press_exact_up_to_2_pow_24 (s : AppState) (x y button : Int)
    (hx : |x| ≤ 2 ^ 24) (hy : |y| ≤ 2 ^ 24) :
    (mousePressed s x y button).1.circleX.Holds x ∧
    (mousePressed s x y button).1.circleY.Holds y ∧
    (∃ cx cy r, (draw (mousePressed s x y button).1).2 =
        [Cmd.ofSetColor 255 100 100, Cmd.ofDrawCircle cx cy r] ∧ cx.Holds x ∧ cy.Holds y) ∧
    ((16777217 : Int) = 2 ^ 24 + 1 ∧ (16777217 : Int) < 2 ^ 31 ∧
      ¬ (mousePressed s 16777217 y button).1.circleX.Holds 16777217 ∧
      (mousePressed s 16777217 y button).1.circleX.Holds 16777216) := by
  refine ⟨ofInt_exact x hx, ofInt_exact y hy,
    ⟨_, _, _, rfl, ofInt_exact x hx, ofInt_exact y hy⟩,
    by norm_num, by norm_num, ofInt_16777217_not_exact, ?_⟩
  show (Float32.ofInt 16777217).Holds 16777216
  rw [ofInt_16777217]
  exact ofInt_exact 16777216 (by norm_num)

theorem press_exact_up_to_2_pow_24_witness :
    |(-16777216 : Int)| ≤ 2 ^ 24 ∧ |(640 : Int)| ≤ 2 ^ 24 ∧
      (mousePressed (AppState.init ⟨false, 0, 0⟩ ⟨false, 0, 0⟩) (-16777216) 640 0).1.circleX.Holds
        (-16777216) :=
  ⟨by norm_num, by norm_num,
    (press_exact_up_to_2_pow_24 (AppState.init ⟨false, 0, 0⟩ ⟨false, 0, 0⟩) (-16777216) 640 0
      (by norm_num) (by norm_num)).1⟩

end OfApp
